import Mathlib

/-!
Shallow embedding of the extraction core of `gaussian_analyzer.py`.

Lines of the report are modelled as `List String`.  Python floats are
modelled as exact rationals (the passes only parse decimal literals and
store them; no float arithmetic is performed).  Fallible Python code
(`int(...)` / `float(...)` conversions that may raise `ValueError`) is
modelled with `Except Unit`.
-/

/-- The literal marker substrings used by the scanner, verbatim from the
source (`dashSep` is the 20-dash separator literal of line 133). -/
def scfDoneMark : String := "SCF Done"

def scfColon : String := "SCF Done:"

def stdOrientMark : String := "Standard orientation"

def rotConstMark : String := "Rotational constants"

def dashSep : String := "--------------------"

def harmonicMark : String := "Harmonic frequencies"

def freqMark : String := "Frequencies --"

def occMark : String := "Alpha  occ. eigenvalues"

def virtMark : String := "Alpha virt. eigenvalues"

def elecStateMark : String := "electronic state"

def routeMark : String := "Route"

def dashDash : String := "--"

/-- Substring containment on char lists: Python's `pat in line`. -/
def subList (pat : List Char) : List Char → Bool
  | [] => pat.isEmpty
  | c :: rest => pat.isPrefixOf (c :: rest) || subList pat rest

/-- Python's `pat in line` for strings. -/
def containsSub (pat line : String) : Bool := subList pat.data line.data

/-- Numeric value of a digit string (most significant first). -/
def digitsVal (ds : List Char) : ℕ := ds.foldl (fun n c => 10 * n + (c.toNat - 48)) 0

/-- Value of a decimal literal `[-] ip . fp` as an exact rational, built with
`mkRat` so that it evaluates by kernel reduction. -/
def decToRat (neg : Bool) (ip fp : List Char) : ℚ :=
  let n : ℤ := ((digitsVal ip * 10 ^ fp.length + digitsVal fp : ℕ) : ℤ)
  mkRat (if neg then -n else n) (10 ^ fp.length)

/-- Python's `float(s)` on a whitespace-free token, modelled over the decimal
forms `[+-]? (digits [. digits]? | . digits) ([eE] [+-]? digits)?` and
returning `none` where `float` raises `ValueError`. -/
def parseFloat? (s : String) : Option ℚ :=
  let cs := s.data
  let p : Bool × List Char :=
    match cs with
    | '+' :: t => (false, t)
    | '-' :: t => (true, t)
    | _ => (false, cs)
  let neg := p.1
  let cs := p.2
  let ip := cs.takeWhile Char.isDigit
  let cs := cs.dropWhile Char.isDigit
  let q : List Char × List Char :=
    match cs with
    | '.' :: t => (t.takeWhile Char.isDigit, t.dropWhile Char.isDigit)
    | _ => ([], cs)
  let fp := q.1
  let cs := q.2
  if ip.isEmpty && fp.isEmpty then none
  else
    let base : ℤ := ((digitsVal ip * 10 ^ fp.length + digitsVal fp : ℕ) : ℤ)
    let num : ℤ := if neg then -base else base
    let den : ℕ := 10 ^ fp.length
    match cs with
    | [] => some (mkRat num den)
    | e :: t =>
      if e = 'e' || e = 'E' then
        let r : Bool × List Char :=
          match t with
          | '+' :: t2 => (false, t2)
          | '-' :: t2 => (true, t2)
          | _ => (false, t)
        let eneg := r.1
        let ed := r.2.takeWhile Char.isDigit
        let t2 := r.2.dropWhile Char.isDigit
        if ed.isEmpty || !t2.isEmpty then none
        else if eneg then some (mkRat num (den * 10 ^ digitsVal ed))
        else some (mkRat (num * 10 ^ digitsVal ed) den)
      else none

/-- Python's `int(s)` on a whitespace-free token: optional sign then digits;
`none` where `int` raises `ValueError`. -/
def parseInt? (s : String) : Option ℤ :=
  let cs := s.data
  let p : Bool × List Char :=
    match cs with
    | '+' :: t => (false, t)
    | '-' :: t => (true, t)
    | _ => (false, cs)
  if !p.2.isEmpty && p.2.all Char.isDigit then
    some (if p.1 then -(digitsVal p.2 : ℤ) else (digitsVal p.2 : ℤ))
  else none

/-- Python's `s.isdigit()` (restricted to ASCII digits). -/
def pyIsdigit (s : String) : Bool := !s.data.isEmpty && s.data.all Char.isDigit

/-- Split on single whitespace characters, keeping empty segments
(the accumulator holds the current segment reversed). -/
def wsSplitAux : List Char → List Char → List (List Char)
  | [], acc => [acc.reverse]
  | c :: rest, acc =>
    if c.isWhitespace then acc.reverse :: wsSplitAux rest []
    else wsSplitAux rest (c :: acc)

/-- Python's no-argument `s.split()`: split on whitespace runs, no empties. -/
def pySplit (s : String) : List String :=
  ((wsSplitAux s.data []).map String.mk).filter (fun t => t ≠ "")

/-- Split on each non-overlapping occurrence of `--`, left to right,
keeping empty segments: Python's `s.split("--")`. -/
def splitDashAux : List Char → List Char → List (List Char)
  | [], acc => [acc.reverse]
  | '-' :: '-' :: rest, acc => acc.reverse :: splitDashAux rest []
  | c :: rest, acc => splitDashAux rest (c :: acc)

def pySplitDash (s : String) : List String := (splitDashAux s.data []).map String.mk

/-- Python's `s.strip()`: drop leading and trailing whitespace. -/
def pyStrip (s : String) : String :=
  String.mk (((s.data.dropWhile Char.isWhitespace).reverse.dropWhile Char.isWhitespace).reverse)

/-- Python's `s.lower()` (ASCII letters). -/
def pyLower (s : String) : String := String.mk (s.data.map Char.toLower)

/-- Python's `" ".join(ss)`. -/
def joinSpaces : List (List Char) → List Char
  | [] => []
  | [d] => d
  | d :: rest => d ++ ' ' :: joinSpaces rest

def intercalateSpace (ss : List String) : String := String.mk (joinSpaces (ss.map String.data))

/-- `float` applied pointwise to a token list; `none` if any token fails. -/
def parseFloats? (ts : List String) : Option (List ℚ) := ts.mapM parseFloat?

/-! ### The regex `SCF Done:.*=\s*(-?\d+\.\d+)` (source line 100)

`re.search` with this pattern: leftmost occurrence of the literal
`SCF Done:`, then the greedy `.*` (which cannot cross a newline) picks the
rightmost `=` whose suffix matches `\s*(-?\d+\.\d+)`; the capture is the
decimal literal after that `=`. -/

/-- Prefix match of `\s*(-?\d+\.\d+)` returning the captured value. -/
def parseScfNum (cs : List Char) : Option ℚ :=
  let cs := cs.dropWhile Char.isWhitespace
  let p : Bool × List Char :=
    match cs with
    | '-' :: t => (true, t)
    | _ => (false, cs)
  let d1 := p.2.takeWhile Char.isDigit
  let cs1 := p.2.dropWhile Char.isDigit
  if d1.isEmpty then none
  else
    match cs1 with
    | '.' :: cs2 =>
      let d2 := cs2.takeWhile Char.isDigit
      if d2.isEmpty then none else some (decToRat p.1 d1 d2)
    | _ => none

/-- Scan the text after `SCF Done:` for the rightmost `=` (not preceded by a
newline, since `.*` cannot cross one) whose suffix matches
`\s*(-?\d+\.\d+)`; greedy `.*` prefers the later `=`. -/
def scfScan : List Char → Option ℚ
  | [] => none
  | c :: rest =>
    if c = '\n' then none
    else
      match scfScan rest with
      | some q => some q
      | none => if c = '=' then parseScfNum rest else none

/-- `re.search` of the SCF pattern: try each occurrence of `SCF Done:` from
the left, returning the first whose tail admits a match. -/
def scfSearchAux (pat : List Char) : List Char → Option ℚ
  | [] => none
  | c :: rest =>
    if pat.isPrefixOf (c :: rest) then
      match scfScan ((c :: rest).drop pat.length) with
      | some q => some q
      | none => scfSearchAux pat rest
    else scfSearchAux pat rest

def scfSearch? (line : String) : Option ℚ := scfSearchAux scfColon.data line.data

/-! ### The eigenvalue regexes (source lines 206-207)

`Alpha\s+occ\.\s+eigenvalues\s+--\s+(.*)` and
`Alpha\s+virt\.\s+eigenvalues\s+--\s+(.*)`.  Each `\s+` is followed by a
non-whitespace literal, so a greedy match is forced to consume exactly the
maximal whitespace run; the final capture `(.*)` takes everything up to a
newline (or end). -/

/-- Consume a literal. -/
def eatLit (pat cs : List Char) : Option (List Char) :=
  if pat.isPrefixOf cs then some (cs.drop pat.length) else none

/-- Consume `\s+` (at least one whitespace char, then the maximal run). -/
def eatWs1 : List Char → Option (List Char)
  | [] => none
  | c :: rest => if c.isWhitespace then some (rest.dropWhile Char.isWhitespace) else none

/-- Attempt the eigenvalue pattern at one start position; `kind` is the
literal between `Alpha` and `eigenvalues` (`occ.` or `virt.`). -/
def tryEig (kind : String) (cs : List Char) : Option (List Char) :=
  match eatLit ("Alpha").data cs with
  | none => none
  | some cs =>
    match eatWs1 cs with
    | none => none
    | some cs =>
      match eatLit kind.data cs with
      | none => none
      | some cs =>
        match eatWs1 cs with
        | none => none
        | some cs =>
          match eatLit ("eigenvalues").data cs with
          | none => none
          | some cs =>
            match eatWs1 cs with
            | none => none
            | some cs =>
              match eatLit dashDash.data cs with
              | none => none
              | some cs =>
                match eatWs1 cs with
                | none => none
                | some cs => some (cs.takeWhile (fun c => c ≠ '\n'))

/-- `re.search` for the eigenvalue pattern: leftmost matching start. -/
def searchEig (kind : String) : List Char → Option (List Char)
  | [] => none
  | c :: rest =>
    match tryEig kind (c :: rest) with
    | some cap => some cap
    | none => searchEig kind rest

def searchOcc (line : String) : Option String :=
  (searchEig ("occ.") line.data).map String.mk

def searchVirt (line : String) : Option String :=
  (searchEig ("virt.") line.data).map String.mk

/-! ### The calculation-info pass (`_extract_calculation_info`, lines 69-87) -/

/-- Collect the stripped lines following the marker, stopping at the first
line that is empty after stripping (Python truthiness of `strip()`). -/
def collectRoute : List String → List String
  | [] => []
  | l :: rest => if pyStrip l ≠ "" then pyStrip l :: collectRoute rest else []

/-- The route field of `calculation_info` (`none` models an absent key). -/
def extract_calculation_info : List String → Option String
  | [] => none
  | line :: rest =>
    if containsSub routeMark line then some (intercalateSpace (collectRoute rest))
    else extract_calculation_info rest

/-! ### The energy pass (`_extract_energies`, lines 89-105)

Total: the captured group of the SCF regex is always a valid float literal,
so `float(match.group(1))` never raises. -/

def extract_energiesAux : List String → List ℚ → List ℚ
  | [], acc => acc
  | line :: rest, acc =>
    if containsSub scfDoneMark line then
      match scfSearch? line with
      | some q => extract_energiesAux rest (acc ++ [q])
      | none => extract_energiesAux rest acc
    else extract_energiesAux rest acc

def extract_energies (content : List String) : List ℚ := extract_energiesAux content []

/-- Declarative per-line description: the value contributed by one line. -/
def lineEnergy? (line : String) : Option ℚ :=
  if containsSub scfDoneMark line then scfSearch? line else none

/-! ### The geometry pass (`_extract_geometries`, lines 107-146) -/

structure Atom where
  atomic_number : ℤ
  coordinates : List ℚ
deriving DecidableEq

/-- `len(parts) == 6 and parts[0].isdigit()`. -/
def candidateRow (line : String) : Bool :=
  let parts := pySplit line
  parts.length == 6 && pyIsdigit (parts.getD 0 "")

/-- `{'atomic_number': int(parts[1]), 'coordinates': [float(x) for x in parts[3:6]]}`;
`none` where a conversion raises. -/
def parseAtom? (line : String) : Option Atom :=
  let parts := pySplit line
  match parseInt? (parts.getD 1 ""),
        parseFloat? (parts.getD 3 ""), parseFloat? (parts.getD 4 ""),
        parseFloat? (parts.getD 5 "") with
  | some z, some x, some y, some w => some ⟨z, [x, y, w]⟩
  | _, _, _, _ => none

/-- One state-machine run of the geometry loop; the state is
`(reading_geom, current_geom, geometries)`. -/
def geomRun : List String → Bool → List Atom → List (List Atom) →
    Except Unit (Bool × List Atom × List (List Atom))
  | [], r, cur, acc => .ok (r, cur, acc)
  | line :: rest, r, cur, acc =>
    if containsSub stdOrientMark line then geomRun rest true [] acc
    else if r then
      if containsSub dashSep line then geomRun rest r cur acc
      else if containsSub rotConstMark line then
        geomRun rest false cur (if cur.isEmpty then acc else acc ++ [cur])
      else if candidateRow line then
        match parseAtom? line with
        | some a => geomRun rest r (cur ++ [a]) acc
        | none => .error ()
      else geomRun rest r cur acc
    else geomRun rest r cur acc

def extract_geometries (content : List String) : Except Unit (List (List Atom)) :=
  (geomRun content false [] []).map (fun st => st.2.2)

/-- Declarative per-line description of an inside-block line's contribution:
dash-separator lines and non-candidate lines contribute nothing. -/
def rowAtom? (line : String) : Option Atom :=
  if containsSub dashSep line then none
  else if candidateRow line then parseAtom? line
  else none

/-! ### The frequency pass (`_extract_frequencies`, lines 148-182) -/

/-- The token segment after the first `--`: `line.split("--")[1]`. -/
def freqSeg (line : String) : String := (pySplitDash line).getD 1 ""

/-- One state-machine run of the frequency loop; the state is
`(current_profile, frequency_profiles)`. -/
def freqRun : List String → Option (List ℚ) → List (List ℚ) →
    Except Unit (Option (List ℚ) × List (List ℚ))
  | [], cur, acc => .ok (cur, acc)
  | line :: rest, cur, acc =>
    if containsSub harmonicMark line then
      freqRun rest (some [])
        (match cur with
         | some p => acc ++ [p]
         | none => acc)
    else if containsSub freqMark line && cur.isSome then
      match parseFloats? (pySplit (freqSeg line)) with
      | some qs => freqRun rest (some (cur.getD [] ++ qs)) acc
      | none => .error ()
    else freqRun rest cur acc

/-- The end-of-input flush of `current_profile`. -/
def flushProfile : Option (List ℚ) × List (List ℚ) → List (List ℚ)
  | (some p, acc) => acc ++ [p]
  | (none, acc) => acc

def extract_frequencies (content : List String) : Except Unit (List (List ℚ)) :=
  (freqRun content none []).map flushProfile

/-- Declarative per-line description: floats contributed by one in-profile line. -/
def lineFreqs? (line : String) : Option (List ℚ) :=
  if containsSub freqMark line then parseFloats? (pySplit (freqSeg line)) else none

/-- The concatenated frequency values collected by one profile body. -/
def profileOf (body : List String) : List ℚ := (body.filterMap lineFreqs?).flatten

/-- `m :: b` for each (marker line, body) pair, concatenated. -/
def blocksFlat (blocks : List (String × List String)) : List String :=
  blocks.foldr (fun pr acc => pr.1 :: (pr.2 ++ acc)) []

/-! ### The electronic-structure pass (`_extract_electronic_structure`,
lines 184-221) -/

structure ElecStruct where
  state : Option String
  occupied_eigenvalues : Option (List ℚ)
  virtual_eigenvalues : Option (List ℚ)
deriving DecidableEq

def elecInit : ElecStruct := ⟨none, none, none⟩

/-- First check of the pass: `if "electronic state" in line.lower()`. -/
def applyState (es : ElecStruct) (line : String) : ElecStruct :=
  if containsSub elecStateMark (pyLower line) then
    { es with state := some (pyStrip line) }
  else es

/-- Second check: the occupied-eigenvalue trigger, regex and float parse. -/
def applyOcc (es : ElecStruct) (line : String) : Except Unit ElecStruct :=
  if containsSub occMark line then
    match searchOcc line with
    | some cap =>
      match parseFloats? (pySplit cap) with
      | some qs => .ok { es with occupied_eigenvalues := some qs }
      | none => .error ()
    | none => .ok es
  else .ok es

/-- Third check: the virtual-eigenvalue trigger, regex and float parse. -/
def applyVirt (es : ElecStruct) (line : String) : Except Unit ElecStruct :=
  if containsSub virtMark line then
    match searchVirt line with
    | some cap =>
      match parseFloats? (pySplit cap) with
      | some qs => .ok { es with virtual_eigenvalues := some qs }
      | none => .error ()
    | none => .ok es
  else .ok es

/-- The three independent per-line checks of the pass, in source order. -/
def elecLine (es : ElecStruct) (line : String) : Except Unit ElecStruct :=
  match applyOcc (applyState es line) line with
  | .error e => .error e
  | .ok es2 => applyVirt es2 line

def elecRun : List String → ElecStruct → Except Unit ElecStruct
  | [], es => .ok es
  | line :: rest, es =>
    match elecLine es line with
    | .error e => .error e
    | .ok es2 => elecRun rest es2

def extract_electronic_structure (content : List String) : Except Unit ElecStruct :=
  elecRun content elecInit

deriving instance DecidableEq for Except

/-! ## Helper lemmas -/

theorem extract_energiesAux_eq (c : List String) :
    ∀ acc, extract_energiesAux c acc = acc ++ c.filterMap lineEnergy? := by
  induction c with
  | nil => intro acc; simp [extract_energiesAux]
  | cons l rest ih =>
    intro acc
    simp only [extract_energiesAux, List.filterMap_cons, lineEnergy?]
    cases hc : containsSub scfDoneMark l with
    | true =>
      cases hs : scfSearch? l with
      | some q => simp [ih, List.append_assoc]
      | none => simp [ih]
    | false => simp [ih]

theorem filterMap_length_eq_filter_isSome (f : String → Option ℚ) (c : List String) :
    (c.filterMap f).length = (c.filter (fun l => (f l).isSome)).length := by
  induction c with
  | nil => rfl
  | cons l rest ih =>
    cases hs : f l with
    | some q => simp [List.filterMap_cons, List.filter_cons, hs, ih]
    | none => simp [List.filterMap_cons, List.filter_cons, hs, ih]

theorem subList_of_prefix (pat l : List Char) (h : pat <+: l) : subList pat l = true := by
  cases l with
  | nil =>
    rcases h with ⟨t, ht⟩
    rcases List.append_eq_nil.mp ht with ⟨h1, _⟩
    subst h1; rfl
  | cons c rest =>
    simp only [subList, Bool.or_eq_true]
    exact Or.inl (List.isPrefixOf_iff_prefix.mpr h)

theorem scfScan_append (l1 l2 : List Char) (h1 : '\n' ∉ l1) (h2 : (scfScan l2).isSome) :
    scfScan (l1 ++ l2) = scfScan l2 := by
  induction l1 with
  | nil => simp
  | cons c rest ih =>
    have hc : ¬(c = '\n') := fun h => h1 (h ▸ List.mem_cons_self c rest)
    have hrest : '\n' ∉ rest := fun h => h1 (List.mem_cons_of_mem _ h)
    obtain ⟨q, hq⟩ := Option.isSome_iff_exists.mp h2
    simp only [List.cons_append, scfScan, if_neg hc, List.append_eq, ih hrest, hq]

theorem scfScan_no_eq (l : List Char) (h : '=' ∉ l) : scfScan l = none := by
  induction l with
  | nil => rfl
  | cons c rest ih =>
    have hc : ¬(c = '=') := fun hh => h (hh ▸ List.mem_cons_self c rest)
    have hrest : '=' ∉ rest := fun hh => h (List.mem_cons_of_mem _ hh)
    simp only [scfScan, ih hrest, if_neg hc]
    split <;> rfl

theorem scfSearchAux_prefix (pat rest : List Char) (hne : pat ≠ [])
    (h : (scfScan rest).isSome) : scfSearchAux pat (pat ++ rest) = scfScan rest := by
  cases pat with
  | nil => exact absurd rfl hne
  | cons p ps =>
    have hpre : (p :: ps).isPrefixOf (p :: ps ++ rest) = true :=
      List.isPrefixOf_iff_prefix.mpr ⟨rest, rfl⟩
    have hdrop : (p :: ps ++ rest).drop (p :: ps).length = rest := List.drop_left (p :: ps) rest
    obtain ⟨q, hq⟩ := Option.isSome_iff_exists.mp h
    simp only [List.cons_append] at hpre hdrop ⊢
    simp only [scfSearchAux, hpre, if_true, hdrop, hq]

theorem geomRun_append (xs ys : List String) :
    ∀ r cur acc, geomRun (xs ++ ys) r cur acc =
      match geomRun xs r cur acc with
      | .ok st => geomRun ys st.1 st.2.1 st.2.2
      | .error e => .error e := by
  induction xs with
  | nil => intro r cur acc; simp [geomRun]
  | cons l rest ih =>
    intro r cur acc
    simp only [List.cons_append, geomRun]
    cases h1 : containsSub stdOrientMark l with
    | true => simp [ih]
    | false =>
      cases r with
      | false => simp [ih]
      | true =>
        cases h2 : containsSub dashSep l with
        | true => simp [ih]
        | false =>
          cases h3 : containsSub rotConstMark l with
          | true => simp [ih]
          | false =>
            cases h4 : candidateRow l with
            | false => simp [ih]
            | true =>
              cases h5 : parseAtom? l with
              | some a => simp [ih]
              | none => simp

theorem geomRun_body (body : List String)
    (hb : ∀ l ∈ body, containsSub stdOrientMark l = false ∧
      containsSub rotConstMark l = false ∧
      (containsSub dashSep l = false → candidateRow l = true → (parseAtom? l).isSome)) :
    ∀ rest cur acc, geomRun (body ++ rest) true cur acc =
      geomRun rest true (cur ++ body.filterMap rowAtom?) acc := by
  induction body with
  | nil => intro rest cur acc; simp
  | cons l bodyt ih =>
    intro rest cur acc
    obtain ⟨h1, h2, h3⟩ := hb l (List.mem_cons_self l bodyt)
    have hbt : ∀ x ∈ bodyt, containsSub stdOrientMark x = false ∧
        containsSub rotConstMark x = false ∧
        (containsSub dashSep x = false → candidateRow x = true → (parseAtom? x).isSome) :=
      fun x hx => hb x (List.mem_cons_of_mem _ hx)
    simp only [List.cons_append, geomRun, h1, h2, Bool.false_eq_true, if_false,
      List.filterMap_cons, rowAtom?]
    cases hd : containsSub dashSep l with
    | true => simp [ih hbt]
    | false =>
      cases hc : candidateRow l with
      | false => simp [h1, h2, hc, ih hbt]
      | true =>
        obtain ⟨a, ha⟩ := Option.isSome_iff_exists.mp (h3 hd hc)
        simp [h1, h2, hc, ha, ih hbt, List.append_assoc]

theorem geomRun_acc_nonempty (content : List String) :
    ∀ r cur acc st, (∀ g ∈ acc, g ≠ []) → geomRun content r cur acc = .ok st →
      ∀ g ∈ st.2.2, g ≠ [] := by
  induction content with
  | nil =>
    intro r cur acc st hacc h
    cases h
    exact hacc
  | cons l rest ih =>
    intro r cur acc st hacc h
    simp only [geomRun] at h
    cases h1 : containsSub stdOrientMark l with
    | true =>
      rw [h1] at h
      exact ih _ _ _ _ hacc (by simpa using h)
    | false =>
      rw [h1] at h
      simp only [Bool.false_eq_true, if_false] at h
      cases r with
      | false => exact ih _ _ _ _ hacc h
      | true =>
        simp only [if_true] at h
        cases h2 : containsSub dashSep l with
        | true =>
          rw [h2] at h
          exact ih _ _ _ _ hacc (by simpa using h)
        | false =>
          rw [h2] at h
          simp only [Bool.false_eq_true, if_false] at h
          cases h3 : containsSub rotConstMark l with
          | true =>
            rw [h3] at h
            simp only [if_true] at h
            refine ih _ _ _ _ ?_ h
            cases hcur : cur.isEmpty with
            | true => simpa [hcur] using hacc
            | false =>
              simp only [hcur, Bool.false_eq_true, if_false]
              intro g hg
              rcases List.mem_append.mp hg with hg | hg
              · exact hacc g hg
              · rcases List.mem_singleton.mp hg with rfl
                intro hnil
                rw [hnil] at hcur
                simp at hcur
          | false =>
            rw [h3] at h
            simp only [Bool.false_eq_true, if_false] at h
            cases h4 : candidateRow l with
            | false =>
              rw [h4] at h
              simp only [Bool.false_eq_true, if_false] at h
              exact ih _ _ _ _ hacc h
            | true =>
              rw [h4] at h
              simp only [if_true] at h
              cases h5 : parseAtom? l with
              | some a =>
                rw [h5] at h
                exact ih _ _ _ _ hacc h
              | none =>
                rw [h5] at h
                cases h

theorem freqRun_append (xs ys : List String) :
    ∀ cur acc, freqRun (xs ++ ys) cur acc =
      match freqRun xs cur acc with
      | .ok st => freqRun ys st.1 st.2
      | .error e => .error e := by
  induction xs with
  | nil => intro cur acc; simp [freqRun]
  | cons l rest ih =>
    intro cur acc
    simp only [List.cons_append, freqRun]
    cases h1 : containsSub harmonicMark l with
    | true => simp [ih]
    | false =>
      simp only [Bool.false_eq_true, if_false]
      cases h2 : (containsSub freqMark l && cur.isSome) with
      | false => simp [h2, ih]
      | true =>
        simp only [h2, if_true]
        cases h3 : parseFloats? (pySplit (freqSeg l)) with
        | some qs => simp [ih]
        | none => simp

theorem freqRun_none_skip (pre : List String)
    (h : ∀ l ∈ pre, containsSub harmonicMark l = false) :
    ∀ acc, freqRun pre none acc = .ok (none, acc) := by
  induction pre with
  | nil => intro acc; rfl
  | cons l rest ih =>
    intro acc
    have h1 := h l (List.mem_cons_self l rest)
    simp only [freqRun, h1, Option.isSome_none, Bool.and_false, Bool.false_eq_true, if_false]
    exact ih (fun x hx => h x (List.mem_cons_of_mem _ hx)) acc

theorem freqRun_block (b : List String)
    (hb : ∀ l ∈ b, containsSub harmonicMark l = false ∧
      (containsSub freqMark l = true → (lineFreqs? l).isSome)) :
    ∀ rest p acc, freqRun (b ++ rest) (some p) acc =
      freqRun rest (some (p ++ profileOf b)) acc := by
  induction b with
  | nil => intro rest p acc; simp [profileOf]
  | cons l bt ih =>
    intro rest p acc
    obtain ⟨h1, h2⟩ := hb l (List.mem_cons_self l bt)
    have hbt : ∀ x ∈ bt, containsSub harmonicMark x = false ∧
        (containsSub freqMark x = true → (lineFreqs? x).isSome) :=
      fun x hx => hb x (List.mem_cons_of_mem _ hx)
    simp only [List.cons_append, freqRun, h1, Bool.false_eq_true, if_false]
    cases hf : containsSub freqMark l with
    | false =>
      have hnone : lineFreqs? l = none := by simp [lineFreqs?, hf]
      simp [hf, ih hbt, profileOf, List.filterMap_cons, hnone]
    | true =>
      obtain ⟨qs, hqs⟩ := Option.isSome_iff_exists.mp (h2 hf)
      have hq2 : parseFloats? (pySplit (freqSeg l)) = some qs := by
        have hx := hqs
        simp only [lineFreqs?, hf, if_true] at hx
        exact hx
      simp only [hf, Option.isSome_some, Bool.and_self, if_true, hq2, Option.getD_some,
        List.append_eq]
      rw [ih hbt]
      have hprof : profileOf (l :: bt) = qs ++ profileOf bt := by
        simp [profileOf, List.filterMap_cons, lineFreqs?, hf, hq2]
      rw [hprof, List.append_assoc]

theorem freqRun_flat (blocks : List (String × List String))
    (hbl : ∀ pr ∈ blocks, containsSub harmonicMark pr.1 = true ∧
      ∀ l ∈ pr.2, containsSub harmonicMark l = false ∧
        (containsSub freqMark l = true → (lineFreqs? l).isSome)) :
    ∀ p acc, Except.map flushProfile (freqRun (blocksFlat blocks) (some p) acc) =
      .ok ((acc ++ [p]) ++ blocks.map (fun pr => profileOf pr.2)) := by
  induction blocks with
  | nil => intro p acc; simp [blocksFlat, freqRun, flushProfile, Except.map]
  | cons pr rest ih =>
    intro p acc
    obtain ⟨hmk, hbody⟩ := hbl pr (List.mem_cons_self pr rest)
    have hrest : ∀ x ∈ rest, containsSub harmonicMark x.1 = true ∧
        ∀ l ∈ x.2, containsSub harmonicMark l = false ∧
          (containsSub freqMark l = true → (lineFreqs? l).isSome) :=
      fun x hx => hbl x (List.mem_cons_of_mem _ hx)
    have hflat : blocksFlat (pr :: rest) = pr.1 :: (pr.2 ++ blocksFlat rest) := rfl
    rw [hflat]
    simp only [freqRun, hmk, if_true]
    rw [freqRun_block pr.2 hbody (blocksFlat rest) [] (acc ++ [p])]
    simp only [List.nil_append]
    rw [ih hrest]
    simp [List.append_assoc]

/-! ## Claims -/

/-- C1: for every input line sequence the energy pass appends exactly one
parsed value for each line containing `SCF Done` that matches the numeric
pattern `SCF Done:.*=\s*(-?\d+\.\d+)`, in line order; hence `energies` is
the in-order filter-map of the per-line extraction, and its length is the
number of matching lines. -/
theorem extract_energies_spec (content : List String) :
    extract_energies content = content.filterMap lineEnergy? ∧
    (extract_energies content).length =
      (content.filter (fun l => (lineEnergy? l).isSome)).length := by
  constructor
  · simpa [extract_energies] using extract_energiesAux_eq content []
  · rw [extract_energies, extract_energiesAux_eq content []]
    simpa using filterMap_length_eq_filter_isSome lineEnergy? content

/-- C10: on an `SCF Done` line with two `=` characters each followed by a
signed decimal, the greedy `.*` of the pattern makes the energy pass append
the decimal following the LAST `=`, not the first. -/
theorem scf_last_equals_wins (A B C : String) (q2 : ℚ)
    (hA : '\n' ∉ A.data) (hB : '\n' ∉ B.data) (hC : '=' ∉ C.data)
    (_hfirst : (parseScfNum (B.data ++ '=' :: C.data)).isSome = true)
    (hlast : parseScfNum C.data = some q2) :
    extract_energies [scfColon ++ A ++ ("=" : String) ++ B ++ ("=" : String) ++ C] = [q2] := by
  have he : ("=" : String).data = ['='] := rfl
  have hdata : (scfColon ++ A ++ ("=" : String) ++ B ++ ("=" : String) ++ C).data
      = scfColon.data ++ (A.data ++ '=' :: (B.data ++ '=' :: C.data)) := by
    simp only [String.data_append, he, List.append_assoc, List.singleton_append,
      List.cons_append, List.nil_append]
  have hscanEnd : scfScan ('=' :: C.data) = some q2 := by
    simp [scfScan, scfScan_no_eq C.data hC, hlast]
  have h1 : '\n' ∉ A.data ++ '=' :: B.data := by
    intro hmem
    rcases List.mem_append.mp hmem with h | h
    · exact hA h
    · rcases List.mem_cons.mp h with h | h
      · exact absurd h (by decide)
      · exact hB h
  have hassoc : (A.data ++ '=' :: B.data) ++ '=' :: C.data
      = A.data ++ '=' :: (B.data ++ '=' :: C.data) := by
    simp [List.append_assoc]
  have hscan : scfScan (A.data ++ '=' :: (B.data ++ '=' :: C.data)) = some q2 := by
    rw [← hassoc, scfScan_append _ _ h1 (by rw [hscanEnd]; rfl), hscanEnd]
  have hsearch : scfSearch? (scfColon ++ A ++ ("=" : String) ++ B ++ ("=" : String) ++ C)
      = some q2 := by
    unfold scfSearch?
    rw [hdata, scfSearchAux_prefix _ _ (by decide) (by rw [hscan]; rfl), hscan]
  have hsub : containsSub scfDoneMark
      (scfColon ++ A ++ ("=" : String) ++ B ++ ("=" : String) ++ C) = true := by
    unfold containsSub
    apply subList_of_prefix
    rw [hdata, show scfColon.data = scfDoneMark.data ++ [':'] by decide, List.append_assoc]
    exact List.prefix_append _ _
  simp [extract_energies, extract_energiesAux, hsub, hsearch]

/-- Witness for C10 at the line
`SCF Done: E(RHF) = -1.5 junk =  -2.25`: the appended value is `-2.25`. -/
theorem scf_last_equals_wins_witness :
    extract_energies [scfColon ++ (" E(RHF) ") ++ ("=" : String) ++ (" -1.5 junk ") ++
      ("=" : String) ++ ("  -2.25")] = [mkRat (-225) 100] :=
  scf_last_equals_wins (" E(RHF) ") (" -1.5 junk ") ("  -2.25") (mkRat (-225) 100)
    (by decide) (by decide) (by decide) (by decide) (by decide)

/-- C2 counterexample: a `Standard orientation` block with exactly K = 0
atom rows followed by a `Rotational constants` line.  The claim asserts that
exactly one snapshot of length K (here the empty snapshot) is appended, but
the pass appends nothing: `geometries` stays `[]` instead of `[[]]`. -/
theorem geometry_empty_block_counterexample :
    extract_geometries [stdOrientMark, rotConstMark] = Except.ok [] ∧
    (Except.ok ([] : List (List Atom)) : Except Unit (List (List Atom))) ≠
      Except.ok [([] : List Atom)] := by
  constructor
  · decide
  · decide

/-- C2 (amended): for an input `pre ++ marker :: body ++ term :: post` where
`marker` contains `Standard orientation`, `term` is a `Rotational constants`
line (free of the other markers), the body lines contain no marker, every
non-dash candidate atom row of the body parses, and the number K of
contributing atom rows is positive, the pass appends exactly one snapshot —
`body.filterMap rowAtom?`, of length K, with atomic numbers and coordinates
parsed from tokens 1 and 3-5 of each row — and continues with `post`. -/
theorem geometry_block_spec (pre body post : List String) (marker term : String)
    (r0 : Bool) (cur0 : List Atom) (acc0 : List (List Atom)) (K : ℕ)
    (hpre : geomRun pre false [] [] = .ok (r0, cur0, acc0))
    (hm : containsSub stdOrientMark marker = true)
    (ht1 : containsSub stdOrientMark term = false)
    (ht2 : containsSub dashSep term = false)
    (ht3 : containsSub rotConstMark term = true)
    (hb : ∀ l ∈ body, containsSub stdOrientMark l = false ∧
      containsSub rotConstMark l = false ∧
      (containsSub dashSep l = false → candidateRow l = true → (parseAtom? l).isSome))
    (hK : (body.filterMap rowAtom?).length = K) (hKpos : 0 < K) :
    extract_geometries (pre ++ marker :: body ++ term :: post) =
      Except.map (fun st => st.2.2)
        (geomRun post false (body.filterMap rowAtom?)
          (acc0 ++ [body.filterMap rowAtom?])) := by
  have hA : body.filterMap rowAtom? ≠ [] := by
    intro hnil
    rw [hnil] at hK
    simp at hK
    omega
  have hAe : (body.filterMap rowAtom?).isEmpty = false := by
    cases hcase : body.filterMap rowAtom? with
    | nil => exact absurd hcase hA
    | cons a t => rfl
  unfold extract_geometries
  have hshape : pre ++ marker :: body ++ term :: post
      = pre ++ (marker :: (body ++ term :: post)) := by
    simp [List.append_assoc]
  rw [hshape, geomRun_append, hpre]
  simp only [geomRun, hm, if_true]
  rw [geomRun_body body hb (term :: post) [] acc0]
  simp only [geomRun, ht1, ht2, ht3, List.nil_append, Bool.false_eq_true, if_false,
    if_true, hAe]

/-- Witness for C2 (amended) at a one-row block. -/
theorem geometry_block_spec_witness :
    extract_geometries [stdOrientMark, ("1 8 0 0.0 0.0 0.960"), rotConstMark] =
      Except.ok [[(⟨8, [mkRat 0 1, mkRat 0 1, mkRat 960 1000]⟩ : Atom)]] :=
  geometry_block_spec [] [("1 8 0 0.0 0.0 0.960")] [] stdOrientMark rotConstMark
    false [] [] 1 rfl (by decide) (by decide) (by decide) (by decide)
    (by decide) (by decide) (by decide)

/-- C7: a trailing `Standard orientation` block that reaches end of input
without a `Rotational constants` terminator contributes nothing: the output
equals the output on the input truncated before the marker. -/
theorem unterminated_geometry_not_flushed (pre tail : List String) (marker : String)
    (hm : containsSub stdOrientMark marker = true)
    (ht : ∀ l ∈ tail, containsSub stdOrientMark l = false ∧
      containsSub rotConstMark l = false ∧
      (containsSub dashSep l = false → candidateRow l = true → (parseAtom? l).isSome)) :
    extract_geometries (pre ++ marker :: tail) = extract_geometries pre := by
  unfold extract_geometries
  rw [geomRun_append]
  cases hp : geomRun pre false [] [] with
  | error e => rfl
  | ok st =>
    simp only [geomRun, hm, if_true]
    rw [← List.append_nil tail, geomRun_body tail ht [] [] st.2.2]
    simp [geomRun, Except.map]

/-- Witness for C7: an unterminated block with one (parsed) atom row yields
the same output as the empty input. -/
theorem unterminated_geometry_not_flushed_witness :
    extract_geometries [stdOrientMark, ("1 8 0 0.0 0.0 0.0")] =
      extract_geometries [] :=
  unterminated_geometry_not_flushed [] [("1 8 0 0.0 0.0 0.0")] stdOrientMark
    (by decide) (by decide)

/-- C8: every snapshot in `geometries` is nonempty — a block whose atom list
is empty at its terminator is dropped. -/
theorem geometry_snapshots_nonempty (content : List String) (gs : List (List Atom))
    (h : extract_geometries content = .ok gs) : ∀ g ∈ gs, g ≠ [] := by
  unfold extract_geometries at h
  cases hg : geomRun content false [] [] with
  | error e =>
    rw [hg] at h
    cases h
  | ok st =>
    rw [hg] at h
    simp only [Except.map] at h
    cases h
    exact geomRun_acc_nonempty content false [] [] st (by simp) hg

/-- Witness for C8 on a two-block input whose first block is empty: the one
stored snapshot is nonempty. -/
theorem geometry_snapshots_nonempty_witness :
    [(⟨8, [mkRat 0 1, mkRat 0 1, mkRat 0 1]⟩ : Atom)] ≠ ([] : List Atom) :=
  geometry_snapshots_nonempty
    [stdOrientMark, rotConstMark, stdOrientMark, ("1 8 0 0.0 0.0 0.0"), rotConstMark]
    [[(⟨8, [mkRat 0 1, mkRat 0 1, mkRat 0 1]⟩ : Atom)]] (by decide)
    [(⟨8, [mkRat 0 1, mkRat 0 1, mkRat 0 1]⟩ : Atom)] (by decide)

/-- C9: an inside-block line with 6 whitespace tokens and a digit first
token, but a non-integer second token (resp. a non-float fourth token),
makes the unguarded `int`/`float` conversion raise, aborting the scan. -/
theorem geometry_row_parse_error :
    extract_geometries [stdOrientMark, ("1 q 0 0.0 0.0 0.0")] = Except.error () ∧
    extract_geometries [stdOrientMark, ("1 8 0 q 0.0 0.0")] = Except.error () := by
  constructor
  · decide
  · decide

/-- C4 counterexample: the line `Frequencies -- abc` contains the trigger
substring `Frequencies --` and its float conversion fails, but the pass does
NOT silently skip it: the unguarded `float(x)` raises, aborting the scan
(modelled as `Except.error ()`), contradicting the claim that no error is
raised for any trigger line whose companion numeric pattern fails. -/
theorem frequency_parse_error_counterexample :
    extract_frequencies [harmonicMark, freqMark ++ (" abc")] = Except.error () := by decide

/-- C3: an input of `pre` (no `Harmonic frequencies` marker) followed by N
marker-opened blocks yields exactly N profiles, the i-th being the in-order
concatenation of the parsed `Frequencies --` captures of the i-th block's
body; bodies with no such line give an empty profile, the last profile is
flushed at end of input, and `Frequencies --` lines in `pre` contribute
nothing. -/
theorem frequency_profiles_spec (pre : List String)
    (blocks : List (String × List String)) (N : ℕ)
    (hpre : ∀ l ∈ pre, containsSub harmonicMark l = false)
    (hbl : ∀ pr ∈ blocks, containsSub harmonicMark pr.1 = true ∧
      ∀ l ∈ pr.2, containsSub harmonicMark l = false ∧
        (containsSub freqMark l = true → (lineFreqs? l).isSome))
    (hN : blocks.length = N) :
    extract_frequencies (pre ++ blocksFlat blocks) =
      .ok (blocks.map (fun pr => profileOf pr.2)) ∧
    (blocks.map (fun pr => profileOf pr.2)).length = N := by
  refine ⟨?_, by simp [hN]⟩
  unfold extract_frequencies
  rw [freqRun_append, freqRun_none_skip pre hpre []]
  cases blocks with
  | nil => simp [blocksFlat, freqRun, flushProfile, Except.map]
  | cons pr rest =>
    obtain ⟨hmk, hbody⟩ := hbl pr (List.mem_cons_self pr rest)
    have hrest : ∀ x ∈ rest, containsSub harmonicMark x.1 = true ∧
        ∀ l ∈ x.2, containsSub harmonicMark l = false ∧
          (containsSub freqMark l = true → (lineFreqs? l).isSome) :=
      fun x hx => hbl x (List.mem_cons_of_mem _ hx)
    have hflat : blocksFlat (pr :: rest) = pr.1 :: (pr.2 ++ blocksFlat rest) := rfl
    rw [hflat]
    simp only [freqRun, hmk, if_true]
    rw [freqRun_block pr.2 hbody (blocksFlat rest) [] []]
    simp only [List.nil_append]
    rw [freqRun_flat rest hrest (profileOf pr.2) []]
    simp

/-- Witness for C3 with N = 2: a nonempty first profile, an empty second
profile, and a `Frequencies --` line before the first marker that
contributes nothing. -/
theorem frequency_profiles_spec_witness :
    extract_frequencies ([("junk Frequencies -- 9.9")] ++ blocksFlat
        [(harmonicMark, [("Frequencies --  -50.12  300.45")]),
         (harmonicMark ++ (" again"), [])]) =
      .ok [[mkRat (-5012) 100, mkRat 30045 100], ([] : List ℚ)] ∧
    ([[mkRat (-5012) 100, mkRat 30045 100], ([] : List ℚ)]).length = 2 :=
  frequency_profiles_spec [("junk Frequencies -- 9.9")]
    [(harmonicMark, [("Frequencies --  -50.12  300.45")]),
     (harmonicMark ++ (" again"), [])] 2
    (by decide) (by decide) (by decide)

theorem elecRun_append (xs ys : List String) :
    ∀ es, elecRun (xs ++ ys) es =
      match elecRun xs es with
      | .ok es2 => elecRun ys es2
      | .error e => .error e := by
  induction xs with
  | nil => intro es; simp [elecRun]
  | cons l rest ih =>
    intro es
    simp only [List.cons_append, elecRun]
    cases elecLine es l with
    | error e => rfl
    | ok es2 => exact ih es2


theorem applyState_occ (es : ElecStruct) (line : String) :
    (applyState es line).occupied_eigenvalues = es.occupied_eigenvalues := by
  unfold applyState
  split <;> rfl

theorem applyState_virt (es : ElecStruct) (line : String) :
    (applyState es line).virtual_eigenvalues = es.virtual_eigenvalues := by
  unfold applyState
  split <;> rfl

theorem applyOcc_skip (es : ElecStruct) (line : String)
    (h : containsSub occMark line = false ∨ searchOcc line = none) :
    applyOcc es line = .ok es := by
  unfold applyOcc
  rcases h with h | h <;> simp [h]

theorem applyOcc_sets (es : ElecStruct) (line cap : String) (qs : List ℚ)
    (h1 : containsSub occMark line = true)
    (h2 : searchOcc line = some cap)
    (h3 : parseFloats? (pySplit cap) = some qs) :
    applyOcc es line = .ok { es with occupied_eigenvalues := some qs } := by
  unfold applyOcc
  simp [h1, h2, h3]

theorem applyOcc_ok_virt (es es2 : ElecStruct) (line : String)
    (h : applyOcc es line = .ok es2) :
    es2.virtual_eigenvalues = es.virtual_eigenvalues := by
  unfold applyOcc at h
  split at h
  · split at h
    · split at h
      · cases h; rfl
      · cases h
    · cases h; rfl
  · cases h; rfl

theorem applyVirt_skip (es : ElecStruct) (line : String)
    (h : containsSub virtMark line = false ∨ searchVirt line = none) :
    applyVirt es line = .ok es := by
  unfold applyVirt
  rcases h with h | h <;> simp [h]

theorem applyVirt_sets (es : ElecStruct) (line cap : String) (qs : List ℚ)
    (h1 : containsSub virtMark line = true)
    (h2 : searchVirt line = some cap)
    (h3 : parseFloats? (pySplit cap) = some qs) :
    applyVirt es line = .ok { es with virtual_eigenvalues := some qs } := by
  unfold applyVirt
  simp [h1, h2, h3]

theorem applyVirt_ok_occ (es es2 : ElecStruct) (line : String)
    (h : applyVirt es line = .ok es2) :
    es2.occupied_eigenvalues = es.occupied_eigenvalues := by
  unfold applyVirt at h
  split at h
  · split at h
    · split at h
      · cases h; rfl
      · cases h
    · cases h; rfl
  · cases h; rfl

theorem elecLine_skip (line : String) (es : ElecStruct)
    (h1 : containsSub elecStateMark (pyLower line) = false)
    (h2 : containsSub occMark line = false ∨ searchOcc line = none)
    (h3 : containsSub virtMark line = false ∨ searchVirt line = none) :
    elecLine es line = .ok es := by
  have hs : applyState es line = es := by
    unfold applyState
    simp [h1]
  unfold elecLine
  rw [hs, applyOcc_skip es line h2]
  exact applyVirt_skip es line h3

theorem elecLine_occ_sets (line cap : String) (qs : List ℚ)
    (h1 : containsSub occMark line = true)
    (h2 : searchOcc line = some cap)
    (h3 : parseFloats? (pySplit cap) = some qs) :
    ∀ es es2, elecLine es line = .ok es2 → es2.occupied_eigenvalues = some qs := by
  intro es es2 h
  unfold elecLine at h
  rw [applyOcc_sets (applyState es line) line cap qs h1 h2 h3] at h
  have := applyVirt_ok_occ _ es2 line h
  rw [this]

theorem elecLine_occ_preserve (line : String)
    (h : containsSub occMark line = false ∨ searchOcc line = none) :
    ∀ es es2, elecLine es line = .ok es2 →
      es2.occupied_eigenvalues = es.occupied_eigenvalues := by
  intro es es2 hh
  unfold elecLine at hh
  rw [applyOcc_skip (applyState es line) line h] at hh
  have h2 := applyVirt_ok_occ _ es2 line hh
  rw [h2, applyState_occ]

theorem elecRun_occ_preserve (post : List String)
    (hp : ∀ l ∈ post, containsSub occMark l = false ∨ searchOcc l = none) :
    ∀ es es2, elecRun post es = .ok es2 →
      es2.occupied_eigenvalues = es.occupied_eigenvalues := by
  induction post with
  | nil =>
    intro es es2 h
    cases h
    rfl
  | cons l rest ih =>
    intro es es2 h
    simp only [elecRun] at h
    cases hl : elecLine es l with
    | error e =>
      rw [hl] at h
      cases h
    | ok esm =>
      rw [hl] at h
      have h1 := elecLine_occ_preserve l (hp l (List.mem_cons_self l rest)) es esm hl
      have h2 := ih (fun x hx => hp x (List.mem_cons_of_mem _ hx)) esm es2 h
      rw [h2, h1]

theorem elecLine_virt_sets (line cap : String) (qs : List ℚ)
    (h1 : containsSub virtMark line = true)
    (h2 : searchVirt line = some cap)
    (h3 : parseFloats? (pySplit cap) = some qs) :
    ∀ es es2, elecLine es line = .ok es2 → es2.virtual_eigenvalues = some qs := by
  intro es es2 h
  unfold elecLine at h
  cases ha : applyOcc (applyState es line) line with
  | error e =>
    rw [ha] at h
    cases h
  | ok esm =>
    rw [ha] at h
    change applyVirt esm line = Except.ok es2 at h
    rw [applyVirt_sets esm line cap qs h1 h2 h3] at h
    cases h
    rfl

theorem elecLine_virt_preserve (line : String)
    (h : containsSub virtMark line = false ∨ searchVirt line = none) :
    ∀ es es2, elecLine es line = .ok es2 →
      es2.virtual_eigenvalues = es.virtual_eigenvalues := by
  intro es es2 hh
  unfold elecLine at hh
  cases ha : applyOcc (applyState es line) line with
  | error e =>
    rw [ha] at hh
    cases hh
  | ok esm =>
    rw [ha] at hh
    change applyVirt esm line = Except.ok es2 at hh
    rw [applyVirt_skip esm line h] at hh
    cases hh
    rw [applyOcc_ok_virt _ _ line ha, applyState_virt]

theorem elecRun_virt_preserve (post : List String)
    (hp : ∀ l ∈ post, containsSub virtMark l = false ∨ searchVirt l = none) :
    ∀ es es2, elecRun post es = .ok es2 →
      es2.virtual_eigenvalues = es.virtual_eigenvalues := by
  induction post with
  | nil =>
    intro es es2 h
    cases h
    rfl
  | cons l rest ih =>
    intro es es2 h
    simp only [elecRun] at h
    cases hl : elecLine es l with
    | error e =>
      rw [hl] at h
      cases h
    | ok esm =>
      rw [hl] at h
      have h1 := elecLine_virt_preserve l (hp l (List.mem_cons_self l rest)) es esm hl
      have h2 := ih (fun x hx => hp x (List.mem_cons_of_mem _ hx)) esm es2 h
      rw [h2, h1]

theorem calcinfo_skip (pre : List String)
    (h : ∀ l ∈ pre, containsSub routeMark l = false) :
    ∀ rest, extract_calculation_info (pre ++ rest) = extract_calculation_info rest := by
  induction pre with
  | nil => intro rest; rfl
  | cons l pt ih =>
    intro rest
    have h1 := h l (List.mem_cons_self l pt)
    simp only [List.cons_append, extract_calculation_info, h1, Bool.false_eq_true, if_false]
    exact ih (fun x hx => h x (List.mem_cons_of_mem _ hx)) rest

theorem collectRoute_stop (body : List String) (stopper : String) (tail : List String)
    (hb : ∀ l ∈ body, pyStrip l ≠ "") (hs : pyStrip stopper = "") :
    collectRoute (body ++ stopper :: tail) = body.map pyStrip := by
  induction body with
  | nil => simp [collectRoute, hs]
  | cons l bt ih =>
    have h1 := hb l (List.mem_cons_self l bt)
    simp only [List.cons_append, collectRoute, h1, if_true, List.map_cons, ne_eq,
      not_false_iff, List.append_eq]
    rw [ih (fun x hx => hb x (List.mem_cons_of_mem _ hx))]

theorem collectRoute_all (body : List String) (hb : ∀ l ∈ body, pyStrip l ≠ "") :
    collectRoute body = body.map pyStrip := by
  induction body with
  | nil => rfl
  | cons l bt ih =>
    have h1 := hb l (List.mem_cons_self l bt)
    simp only [collectRoute, h1, if_true, List.map_cons, ne_eq, not_false_iff]
    rw [ih (fun x hx => hb x (List.mem_cons_of_mem _ hx))]

/-- C6: the calculation-info pass finds the first line containing `Route`,
collects the following lines up to (excluding) the first blank-after-strip
line or end of input, stores their stripped texts joined with single spaces
as the route (scanning stops: later lines, even with more `Route` markers,
are ignored), and leaves the field absent with no error when no marker
exists. -/
theorem route_extraction_spec :
    (∀ content : List String, (∀ l ∈ content, containsSub routeMark l = false) →
      extract_calculation_info content = none) ∧
    (∀ (pre body tail : List String) (marker stopper : String),
      (∀ l ∈ pre, containsSub routeMark l = false) →
      containsSub routeMark marker = true →
      (∀ l ∈ body, pyStrip l ≠ "") →
      pyStrip stopper = "" →
      extract_calculation_info (pre ++ marker :: (body ++ stopper :: tail)) =
        some (intercalateSpace (body.map pyStrip))) ∧
    (∀ (pre body : List String) (marker : String),
      (∀ l ∈ pre, containsSub routeMark l = false) →
      containsSub routeMark marker = true →
      (∀ l ∈ body, pyStrip l ≠ "") →
      extract_calculation_info (pre ++ marker :: body) =
        some (intercalateSpace (body.map pyStrip))) := by
  refine ⟨?_, ?_, ?_⟩
  · intro content h
    rw [← List.append_nil content, calcinfo_skip content h []]
    rfl
  · intro pre body tail marker stopper hpre hm hb hs
    rw [calcinfo_skip pre hpre (marker :: (body ++ stopper :: tail))]
    simp only [extract_calculation_info, hm, if_true]
    rw [collectRoute_stop body stopper tail hb hs]
  · intro pre body marker hpre hm hb
    rw [calcinfo_skip pre hpre (marker :: body)]
    simp only [extract_calculation_info, hm, if_true]
    rw [collectRoute_all body hb]

/-- Witness for C6: marker found, two route lines collected, stop at the
blank line, later `Route` marker ignored; plus the no-marker case. -/
theorem route_extraction_spec_witness :
    extract_calculation_info
        [("x"), ("#P Route card"), (" B3LYP/6-31G"), ("  opt freq"), (""), ("Route again")] =
      some ("B3LYP/6-31G opt freq") ∧
    extract_calculation_info [("no marker here")] = none :=
  ⟨route_extraction_spec.2.1 [("x")] [(" B3LYP/6-31G"), ("  opt freq")] [("Route again")]
      ("#P Route card") ("") (by decide) (by decide) (by decide) (by decide),
    route_extraction_spec.1 [("no marker here")] (by decide)⟩

/-- C5: a line containing the two-space literal `Alpha  occ. eigenvalues`
whose companion regex matches stores the parsed capture in
`occupied_eigenvalues`, overwriting any earlier value (so the last
qualifying line wins when no later line qualifies); analogously a
single-space `Alpha virt. eigenvalues` line sets `virtual_eigenvalues`. -/
theorem eigenvalues_last_match_wins :
    (∀ (pre post : List String) (line cap : String) (qs : List ℚ) (es : ElecStruct),
      containsSub occMark line = true →
      searchOcc line = some cap →
      parseFloats? (pySplit cap) = some qs →
      (∀ l ∈ post, containsSub occMark l = false ∨ searchOcc l = none) →
      extract_electronic_structure (pre ++ line :: post) = .ok es →
      es.occupied_eigenvalues = some qs) ∧
    (∀ (pre post : List String) (line cap : String) (qs : List ℚ) (es : ElecStruct),
      containsSub virtMark line = true →
      searchVirt line = some cap →
      parseFloats? (pySplit cap) = some qs →
      (∀ l ∈ post, containsSub virtMark l = false ∨ searchVirt l = none) →
      extract_electronic_structure (pre ++ line :: post) = .ok es →
      es.virtual_eigenvalues = some qs) := by
  constructor
  · intro pre post line cap qs es h1 h2 h3 hpost h
    unfold extract_electronic_structure at h
    rw [elecRun_append] at h
    cases hp : elecRun pre elecInit with
    | error e =>
      rw [hp] at h
      cases h
    | ok es1 =>
      rw [hp] at h
      change elecRun (line :: post) es1 = Except.ok es at h
      simp only [elecRun] at h
      cases hl : elecLine es1 line with
      | error e =>
        rw [hl] at h
        cases h
      | ok es2 =>
        rw [hl] at h
        rw [elecRun_occ_preserve post hpost es2 es h]
        exact elecLine_occ_sets line cap qs h1 h2 h3 es1 es2 hl
  · intro pre post line cap qs es h1 h2 h3 hpost h
    unfold extract_electronic_structure at h
    rw [elecRun_append] at h
    cases hp : elecRun pre elecInit with
    | error e =>
      rw [hp] at h
      cases h
    | ok es1 =>
      rw [hp] at h
      change elecRun (line :: post) es1 = Except.ok es at h
      simp only [elecRun] at h
      cases hl : elecLine es1 line with
      | error e =>
        rw [hl] at h
        cases h
      | ok es2 =>
        rw [hl] at h
        rw [elecRun_virt_preserve post hpost es2 es h]
        exact elecLine_virt_sets line cap qs h1 h2 h3 es1 es2 hl

/-- Witness for C5: a two-line file setting both eigenvalue fields. -/
theorem eigenvalues_last_match_wins_witness :
    (ElecStruct.mk none (some [mkRat (-10123) 1000, mkRat (-9876) 1000])
        (some [mkRat 500 1000, mkRat 1250 1000])).occupied_eigenvalues =
      some [mkRat (-10123) 1000, mkRat (-9876) 1000] :=
  eigenvalues_last_match_wins.1 []
    [(" Alpha virt. eigenvalues --   0.500   1.250")]
    (" Alpha  occ. eigenvalues --  -10.123  -9.876")
    ("-10.123  -9.876") [mkRat (-10123) 1000, mkRat (-9876) 1000]
    (ElecStruct.mk none (some [mkRat (-10123) 1000, mkRat (-9876) 1000])
      (some [mkRat 500 1000, mkRat 1250 1000]))
    (by decide) (by decide) (by decide) (by decide) (by decide)

/-- C4 (amended): a line whose trigger substring is present but whose
companion REGEX fails to match is silently skipped with no record mutation
and no error (shown for the `SCF Done` and `Alpha  occ. eigenvalues`
triggers, and for a `Frequencies --` line outside any open profile); but
when the structural pattern does match and a captured token then fails
float conversion, the pass raises instead of skipping (see the
counterexample). -/
theorem recognition_miss_skip :
    (∀ (pre post : List String) (line : String),
      containsSub scfDoneMark line = true → scfSearch? line = none →
      extract_energies (pre ++ line :: post) = extract_energies (pre ++ post)) ∧
    (∀ (pre post : List String) (line : String),
      containsSub occMark line = true → searchOcc line = none →
      containsSub virtMark line = false →
      containsSub elecStateMark (pyLower line) = false →
      extract_electronic_structure (pre ++ line :: post) =
        extract_electronic_structure (pre ++ post)) ∧
    (∀ (pre post : List String) (line : String),
      (∀ l ∈ pre, containsSub harmonicMark l = false) →
      containsSub harmonicMark line = false →
      containsSub freqMark line = true →
      extract_frequencies (pre ++ line :: post) = extract_frequencies (pre ++ post)) := by
  refine ⟨?_, ?_, ?_⟩
  · intro pre post line h1 h2
    unfold extract_energies
    rw [extract_energiesAux_eq, extract_energiesAux_eq]
    have hnone : lineEnergy? line = none := by
      simp [lineEnergy?, h1, h2]
    simp [List.filterMap_append, List.filterMap_cons, hnone]
  · intro pre post line h1 h2 h3 h4
    unfold extract_electronic_structure
    rw [elecRun_append, elecRun_append]
    cases hp : elecRun pre elecInit with
    | error e => rfl
    | ok es1 =>
      change elecRun (line :: post) es1 = elecRun post es1
      simp only [elecRun]
      rw [elecLine_skip line es1 h4 (Or.inr h2) (Or.inl h3)]
  · intro pre post line hpre h1 h2
    unfold extract_frequencies
    rw [freqRun_append, freqRun_append, freqRun_none_skip pre hpre []]
    change Except.map flushProfile (freqRun (line :: post) none []) =
      Except.map flushProfile (freqRun post none [])
    simp only [freqRun, h1, h2, Option.isSome_none, Bool.and_false, Bool.false_eq_true,
      if_false]

/-- Witness for C4 (amended): an `SCF Done` line with no `=`-number is
skipped by the energy pass. -/
theorem recognition_miss_skip_witness :
    extract_energies [("a"), (" SCF Done but nothing here"), ("b")] =
      extract_energies [("a"), ("b")] :=
  recognition_miss_skip.1 [("a")] [("b")] (" SCF Done but nothing here")
    (by decide) (by decide)
